import Mathlib

/-
Formal model of the phishing-detection repository (ThreatLens / PhishGuard).

The embedding covers the frontend security and scan-storage utilities, the
Node boundary layer, and the detection core documented in DETECTION_GUIDE.md.
JavaScript strings are modelled as lists of characters (one entry per code
point) and numeric scores as rationals.
-/

/-- Whitespace characters stripped by the JavaScript trim method (the ASCII
fragment relevant to this code base). -/
def jsWhitespace (c : Char) : Bool :=
  c = ' ' || c = '\t' || c = '\n' || c = '\r' || c.val = 11 || c.val = 12

/-- Model of the JavaScript trim method on character lists: removes leading
and trailing whitespace. -/
def jsTrim (l : List Char) : List Char :=
  ((l.dropWhile jsWhitespace).reverse.dropWhile jsWhitespace).reverse

/-- Model of the first replacement in sanitizeInput (security utilities):
replace of the angle-bracket class by the empty string removes every angle
bracket. -/
def removeAngles (l : List Char) : List Char :=
  l.filter (fun c => !(c = '<' || c = '>'))

/-- The lowercase pattern removed by the second replacement in sanitizeInput. -/
def jsProtoPat : List Char := ['j', 'a', 'v', 'a', 's', 'c', 'r', 'i', 'p', 't', ':']

/-- Model of the global case-insensitive replacement of the pattern
javascript: by the empty string: scan left to right, drop each occurrence and
continue scanning after it. -/
def stripJsProto : List Char → List Char
  | [] => []
  | c :: rest =>
    if ((c :: rest).take jsProtoPat.length).map Char.toLower = jsProtoPat then
      stripJsProto ((c :: rest).drop jsProtoPat.length)
    else
      c :: stripJsProto rest
termination_by l => l.length
decreasing_by
  · simp only [jsProtoPat, List.length_drop, List.length_cons]
    omega
  · simp only [List.length_cons]
    omega

/-- JavaScript word characters, the regex class used by the event-handler
replacement in sanitizeInput. -/
def isWordChar (c : Char) : Bool := c.isAlphanum || c = '_'

/-- Model of the global case-insensitive replacement of event-handler text
(letters o and n, then one or more word characters, then an equals sign) by
the empty string. Because the equals sign is not a word character, the greedy
word-character run is forced to be maximal, so the match length at a position
is determined. -/
def stripHandlers : List Char → List Char
  | [] => []
  | [c] => [c]
  | c1 :: c2 :: rest =>
    if c1.toLower = 'o' ∧ c2.toLower = 'n' ∧
        1 ≤ (rest.takeWhile isWordChar).length ∧
        rest.get? (rest.takeWhile isWordChar).length = some '=' then
      stripHandlers (rest.drop ((rest.takeWhile isWordChar).length + 1))
    else
      c1 :: stripHandlers (c2 :: rest)
termination_by l => l.length
decreasing_by
  · simp only [List.length_drop, List.length_cons]
    omega
  · simp only [List.length_cons]
    omega

/-- Model of the sanitizeInput function from the frontend security utilities:
returns the empty string on falsy input, otherwise removes angle brackets,
the javascript: protocol and event-handler text, trims, and keeps at most
50000 characters. -/
def sanitizeInput (l : List Char) : List Char :=
  if l = [] then []
  else (jsTrim (stripHandlers (stripJsProto (removeAngles l)))).take 50000

/-- Modelled from the spec: the classification-threshold step of the Python
analysis core, which is not under the source tree (DETECTION_GUIDE.md,
section Classification System, documents it). Maps a combined score to the
pair of classification and risk level. -/
def classifyScore (c : ℚ) : String × String :=
  if 0.7 ≤ c then ("phishing", "critical")
  else if 0.4 ≤ c then ("phishing", "high")
  else if 0.2 ≤ c then ("suspicious", "medium")
  else ("safe", "low")

/-- Classification values accepted unchanged by sanitizeScan. -/
def classificationWhitelist : List String := ["safe", "suspicious", "phishing"]

/-- Content types accepted unchanged by sanitizeScan. -/
def contentTypeWhitelist : List String := ["email", "sms", "url"]

/-- Risk levels accepted unchanged by sanitizeScan. -/
def riskLevelWhitelist : List String := ["low", "medium", "high", "critical"]

/-- Input record passed to sanitizeScan. The confidence_score field is the
result of parseFloat on the stored value, with none standing for a
non-numeric value (parseFloat returned NaN). -/
structure ScanInput where
  content_preview : List Char
  explanation : List Char
  classification : String
  content_type : String
  confidence_score : Option ℚ
  risk_level : String

/-- Record produced by sanitizeScan. -/
structure SanitizedScan where
  content_preview : List Char
  explanation : List Char
  classification : String
  content_type : String
  confidence_score : ℚ
  risk_level : String

/-- Model of sanitizeScan from the scan-storage utility: sanitizes and caps
the preview, sanitizes the explanation, replaces non-whitelisted enum fields
by unknown, and clamps the confidence score into the unit interval (a
non-numeric score is first mapped to zero by the or-with-zero guard). -/
def sanitizeScan (s : ScanInput) : SanitizedScan where
  content_preview := (sanitizeInput s.content_preview).take 500
  explanation := sanitizeInput s.explanation
  classification :=
    if s.classification ∈ classificationWhitelist then s.classification else "unknown"
  content_type :=
    if s.content_type ∈ contentTypeWhitelist then s.content_type else "unknown"
  confidence_score := min 1 (max 0 (s.confidence_score.getD 0))
  risk_level :=
    if s.risk_level ∈ riskLevelWhitelist then s.risk_level else "unknown"

/-- A scan entry as persisted by saveScan: the sanitized record plus the
generated id and creation timestamp. -/
structure StoredScan where
  id : String
  scan : SanitizedScan
  created_at : String

/-- Model of saveScan from the scan-storage utility: builds the stored entry,
prepends it to the history read back from storage, and persists only the
first 100 entries. The returned list is what is written to storage. -/
def saveScan (history : List StoredScan) (s : ScanInput)
    (newId createdAt : String) : List StoredScan :=
  let newScan : StoredScan := ⟨newId, sanitizeScan s, createdAt⟩
  (newScan :: history).take 100

/-- C1: the three-way verdict is a fixed threshold function of the combined
score: at least 0.70 gives phishing with critical risk, 0.40 to 0.69 gives
phishing with high risk, 0.20 to 0.39 gives suspicious with medium risk, and
below 0.20 gives safe with low risk. -/
theorem C1_classification_thresholds (c : ℚ) :
    (0.7 ≤ c → classifyScore c = ("phishing", "critical")) ∧
    (0.4 ≤ c ∧ c ≤ 0.69 → classifyScore c = ("phishing", "high")) ∧
    (0.2 ≤ c ∧ c ≤ 0.39 → classifyScore c = ("suspicious", "medium")) ∧
    (c < 0.2 → classifyScore c = ("safe", "low")) := by
  refine ⟨fun h => ?_, fun h => ?_, fun h => ?_, fun h => ?_⟩
  · simp [classifyScore, h]
  · have h1 : ¬ (0.7 : ℚ) ≤ c := by
      rcases h with ⟨_, h2⟩
      intro hc
      norm_num at hc h2
      linarith
    simp [classifyScore, h1, h.1]
  · have h1 : ¬ (0.7 : ℚ) ≤ c := by
      rcases h with ⟨_, h2⟩
      intro hc
      norm_num at hc h2
      linarith
    have h2 : ¬ (0.4 : ℚ) ≤ c := by
      rcases h with ⟨_, h2⟩
      intro hc
      norm_num at hc h2
      linarith
    simp [classifyScore, h1, h2, h.1]
  · have h1 : ¬ (0.7 : ℚ) ≤ c := by
      intro hc
      norm_num at hc h
      linarith
    have h2 : ¬ (0.4 : ℚ) ≤ c := by
      intro hc
      norm_num at hc h
      linarith
    have h3 : ¬ (0.2 : ℚ) ≤ c := by
      intro hc
      norm_num at hc h
      linarith
    simp [classifyScore, h1, h2, h3]

/-- Witness for C1 at the concrete combined score one half. -/
theorem C1_classification_thresholds_witness :
    ((0.4 : ℚ) ≤ 0.5 ∧ (0.5 : ℚ) ≤ 0.69) ∧
      classifyScore 0.5 = ("phishing", "high") :=
  ⟨⟨by norm_num, by norm_num⟩,
    (C1_classification_thresholds 0.5).2.1 ⟨by norm_num, by norm_num⟩⟩

/-- C8: sanitizeScan keeps the confidence score in the unit interval, keeps
every enum field inside its whitelist extended with unknown, replaces
non-whitelisted enum values by unknown, and clamps non-numeric or
out-of-range scores. -/
theorem C8_sanitizeScan_invariants (s : ScanInput) :
    0 ≤ (sanitizeScan s).confidence_score ∧
    (sanitizeScan s).confidence_score ≤ 1 ∧
    (sanitizeScan s).classification ∈ ["safe", "suspicious", "phishing", "unknown"] ∧
    (sanitizeScan s).content_type ∈ ["email", "sms", "url", "unknown"] ∧
    (sanitizeScan s).risk_level ∈ ["low", "medium", "high", "critical", "unknown"] ∧
    (s.classification ∉ classificationWhitelist →
      (sanitizeScan s).classification = "unknown") ∧
    (s.content_type ∉ contentTypeWhitelist →
      (sanitizeScan s).content_type = "unknown") ∧
    (s.risk_level ∉ riskLevelWhitelist →
      (sanitizeScan s).risk_level = "unknown") ∧
    (s.confidence_score = none → (sanitizeScan s).confidence_score = 0) ∧
    (∀ q : ℚ, s.confidence_score = some q → 1 ≤ q →
      (sanitizeScan s).confidence_score = 1) ∧
    (∀ q : ℚ, s.confidence_score = some q → q ≤ 0 →
      (sanitizeScan s).confidence_score = 0) ∧
    (∀ q : ℚ, s.confidence_score = some q → 0 ≤ q → q ≤ 1 →
      (sanitizeScan s).confidence_score = q) := by
  refine ⟨?_, ?_, ?_, ?_, ?_, ?_, ?_, ?_, ?_, ?_, ?_, ?_⟩
  · exact le_min (by norm_num) (le_max_left 0 _)
  · exact min_le_left 1 _
  · by_cases h : s.classification ∈ classificationWhitelist
    · have h2 := h
      simp only [classificationWhitelist, List.mem_cons, List.not_mem_nil, or_false] at h2
      rcases h2 with h2 | h2 | h2 <;> simp only [sanitizeScan, h2] <;> decide
    · simp [sanitizeScan, h]
  · by_cases h : s.content_type ∈ contentTypeWhitelist
    · have h2 := h
      simp only [contentTypeWhitelist, List.mem_cons, List.not_mem_nil, or_false] at h2
      rcases h2 with h2 | h2 | h2 <;> simp only [sanitizeScan, h2] <;> decide
    · simp [sanitizeScan, h]
  · by_cases h : s.risk_level ∈ riskLevelWhitelist
    · have h2 := h
      simp only [riskLevelWhitelist, List.mem_cons, List.not_mem_nil, or_false] at h2
      rcases h2 with h2 | h2 | h2 | h2 <;> simp only [sanitizeScan, h2] <;> decide
    · simp [sanitizeScan, h]
  · intro h
    simp [sanitizeScan, h]
  · intro h
    simp [sanitizeScan, h]
  · intro h
    simp [sanitizeScan, h]
  · intro h
    simp [sanitizeScan, h]
  · intro q hq h1
    have h0 : (0 : ℚ) ≤ q := le_trans (by norm_num) h1
    simp [sanitizeScan, hq, max_eq_right h0, min_eq_left, h1]
  · intro q hq h0
    have hm : max 0 q = 0 := max_eq_left h0
    simp [sanitizeScan, hq, hm]
  · intro q hq h0 h1
    simp [sanitizeScan, hq, max_eq_right h0, min_eq_right h1]

/-- Witness for C8 at a concrete scan with a bogus classification and an
out-of-range score. -/
theorem C8_sanitizeScan_invariants_witness :
    ("bogus" ∉ classificationWhitelist ∧
      (sanitizeScan ⟨[], [], "bogus", "email", some 5, "low"⟩).classification
        = "unknown") ∧
    ((⟨[], [], "bogus", "email", some 5, "low"⟩ : ScanInput).confidence_score
        = some 5 ∧ (1 : ℚ) ≤ 5 ∧
      (sanitizeScan ⟨[], [], "bogus", "email", some 5, "low"⟩).confidence_score
        = 1) :=
  ⟨⟨by decide,
    (C8_sanitizeScan_invariants ⟨[], [], "bogus", "email", some 5, "low"⟩).2.2.2.2.2.1
      (by decide)⟩,
    ⟨rfl, by norm_num,
      (C8_sanitizeScan_invariants
        ⟨[], [], "bogus", "email", some 5, "low"⟩).2.2.2.2.2.2.2.2.2.1 5 rfl
        (by norm_num)⟩⟩

/-- C9: after a saveScan the stored history has at most 100 entries, its
first element is the newly saved scan, and the rest is the previous history
truncated to 99 entries (newest first). -/
theorem C9_saveScan_history (history : List StoredScan) (s : ScanInput)
    (newId createdAt : String) :
    (saveScan history s newId createdAt).length ≤ 100 ∧
    (saveScan history s newId createdAt).head?
      = some ⟨newId, sanitizeScan s, createdAt⟩ ∧
    (saveScan history s newId createdAt).tail = history.take 99 := by
  refine ⟨List.length_take_le 100 _, ?_, ?_⟩
  · rw [saveScan, show (100 : ℕ) = 99 + 1 from rfl, List.take_succ_cons]
    rfl
  · rw [saveScan, show (100 : ℕ) = 99 + 1 from rfl, List.take_succ_cons]
    rfl

/-- Severity levels of a threat indicator. -/
inductive Severity
  | critical
  | high
  | medium
  | low
deriving DecidableEq

/-- A threat indicator produced by one heuristic module. -/
structure Indicator where
  category : String
  description : String
  severity : Severity
  matched_text : Option String
  confidence : ℚ
deriving DecidableEq

/-- Modelled from the spec: severity weights of the heuristic score of the
Python analysis core, which is not under the source tree (DETECTION_GUIDE.md,
Heuristic Score Calculation). -/
def sevWeight : Severity → ℚ
  | .critical => 0.45
  | .high => 0.30
  | .medium => 0.18
  | .low => 0.08

/-- Number of indicators of a given severity. -/
def countSev (l : List Indicator) (s : Severity) : ℕ :=
  l.countP (fun i => i.severity = s)

/-- Some indicator of the list has the given category. -/
def hasCat (l : List Indicator) (c : String) : Prop :=
  ∃ i ∈ l, i.category = c

/-- Some indicator of the list has critical severity. -/
def hasCritical (l : List Indicator) : Prop :=
  ∃ i ∈ l, i.severity = Severity.critical

instance (l : List Indicator) (c : String) : Decidable (hasCat l c) := by
  unfold hasCat
  infer_instance

instance (l : List Indicator) : Decidable (hasCritical l) := by
  unfold hasCritical
  infer_instance

/-- Modelled from the spec: the multiplicative combination boosts applied to
the heuristic score before fusion (DETECTION_GUIDE.md, Boosting rules). -/
def boostFactor (l : List Indicator) : ℚ :=
  (if hasCritical l ∧ hasCat l "Credential Harvesting" then 1.5 else 1) *
  (if hasCat l "Credential Harvesting" ∧ hasCat l "Urgency" then 1.4 else 1) *
  (if hasCat l "Threat Language" ∧ hasCat l "Credential Harvesting" then 1.4 else 1) *
  (if hasCat l "Credential Harvesting" ∧ hasCat l "Suspicious URL" then 1.3 else 1) *
  (if hasCat l "Urgency" ∧ hasCat l "Suspicious URL" then 1.3 else 1)

/-- Modelled from the spec: the unboosted heuristic score, the sum over all
indicators of severity weight times confidence. -/
def baseHeuristicScore (l : List Indicator) : ℚ :=
  (l.map (fun i => sevWeight i.severity * i.confidence)).sum

/-- Modelled from the spec: the boosted heuristic score H. -/
def heuristicScore (l : List Indicator) : ℚ :=
  boostFactor l * baseHeuristicScore l

/-- Modelled from the spec: the branch selection of the ensemble fusion of
the missing analysis core (DETECTION_GUIDE.md, Score Fusion Logic), before
the safety floors. -/
def fuseBase (l : List Indicator) (M : ℚ) : ℚ :=
  if l.length = 0 then M * 0.3
  else if countSev l .critical + countSev l .high = 0 ∧ countSev l .medium ≤ 1 then
    0.7 * heuristicScore l + 0.3 * M
  else
    max (max (heuristicScore l) M) (0.55 * heuristicScore l + 0.45 * M)

/-- One safety floor: when the condition holds the combined score is raised
to at least the floor value. -/
def applyFloor (cond : Prop) [Decidable cond] (v x : ℚ) : ℚ :=
  if cond then max x v else x

/-- Modelled from the spec: the combined score of the ensemble fusion, the
branch value with the five safety floors applied in turn. -/
def fuseScore (l : List Indicator) (M : ℚ) : ℚ :=
  applyFloor (3 ≤ countSev l .medium) 0.40
    (applyFloor (1 ≤ countSev l .critical + countSev l .high ∧ 1 ≤ countSev l .medium) 0.45
      (applyFloor (1 ≤ countSev l .high ∧ 2 ≤ countSev l .medium) 0.55
        (applyFloor (2 ≤ countSev l .critical + countSev l .high ∨ 1 ≤ countSev l .critical) 0.65
          (applyFloor (3 ≤ countSev l .critical + countSev l .high ∨ 2 ≤ countSev l .critical) 0.85
            (fuseBase l M)))))

lemma countSev_cons (i : Indicator) (l : List Indicator) (s : Severity) :
    countSev (i :: l) s = countSev l s + if i.severity = s then 1 else 0 := by
  simp [countSev, List.countP_cons]

lemma countSev_le_length (l : List Indicator) (s : Severity) :
    countSev l s ≤ l.length :=
  List.countP_le_length _

lemma sevWeight_nonneg (s : Severity) : 0 ≤ sevWeight s := by
  cases s <;> norm_num [sevWeight]

lemma baseHeuristicScore_cons (i : Indicator) (l : List Indicator) :
    baseHeuristicScore (i :: l)
      = sevWeight i.severity * i.confidence + baseHeuristicScore l := by
  simp [baseHeuristicScore]

lemma baseHeuristicScore_nonneg {l : List Indicator}
    (h : ∀ i ∈ l, 0 ≤ i.confidence) : 0 ≤ baseHeuristicScore l := by
  unfold baseHeuristicScore
  apply List.sum_nonneg
  intro x hx
  simp only [List.mem_map] at hx
  obtain ⟨i, hi, rfl⟩ := hx
  exact mul_nonneg (sevWeight_nonneg _) (h i hi)

lemma hasCat_cons (i : Indicator) (l : List Indicator) (c : String) :
    hasCat l c → hasCat (i :: l) c :=
  fun ⟨j, hj, he⟩ => ⟨j, List.mem_cons_of_mem _ hj, he⟩

lemma hasCritical_cons (i : Indicator) (l : List Indicator) :
    hasCritical l → hasCritical (i :: l) :=
  fun ⟨j, hj, he⟩ => ⟨j, List.mem_cons_of_mem _ hj, he⟩

lemma ite_factor_one_le {P : Prop} [Decidable P] {a : ℚ} (ha : 1 ≤ a) :
    1 ≤ if P then a else 1 := by
  split
  · exact ha
  · exact le_rfl

lemma ite_le_ite {P Q : Prop} [Decidable P] [Decidable Q] {a : ℚ}
    (h : P → Q) (ha : 1 ≤ a) : (if P then a else 1) ≤ (if Q then a else 1) := by
  by_cases hP : P
  · rw [if_pos hP, if_pos (h hP)]
  · rw [if_neg hP]
    exact ite_factor_one_le ha

lemma mul_le_mul_one_le {a b c d : ℚ} (hab : a ≤ b) (hcd : c ≤ d)
    (ha : 1 ≤ a) (hc : 1 ≤ c) : a * c ≤ b * d ∧ 1 ≤ a * c := by
  constructor
  · exact mul_le_mul hab hcd (le_trans zero_le_one hc)
      (le_trans zero_le_one (le_trans ha hab))
  · have h := mul_le_mul ha hc zero_le_one (le_trans zero_le_one ha)
    simpa using h

lemma boostFactor_cons (ind : Indicator) (l : List Indicator) :
    boostFactor l ≤ boostFactor (ind :: l) ∧ 1 ≤ boostFactor l := by
  unfold boostFactor
  have c1 : hasCritical l ∧ hasCat l "Credential Harvesting" →
      hasCritical (ind :: l) ∧ hasCat (ind :: l) "Credential Harvesting" :=
    And.imp (hasCritical_cons _ _) (hasCat_cons _ _ _)
  have c2 : hasCat l "Credential Harvesting" ∧ hasCat l "Urgency" →
      hasCat (ind :: l) "Credential Harvesting" ∧ hasCat (ind :: l) "Urgency" :=
    And.imp (hasCat_cons _ _ _) (hasCat_cons _ _ _)
  have c3 : hasCat l "Threat Language" ∧ hasCat l "Credential Harvesting" →
      hasCat (ind :: l) "Threat Language" ∧ hasCat (ind :: l) "Credential Harvesting" :=
    And.imp (hasCat_cons _ _ _) (hasCat_cons _ _ _)
  have c4 : hasCat l "Credential Harvesting" ∧ hasCat l "Suspicious URL" →
      hasCat (ind :: l) "Credential Harvesting" ∧ hasCat (ind :: l) "Suspicious URL" :=
    And.imp (hasCat_cons _ _ _) (hasCat_cons _ _ _)
  have c5 : hasCat l "Urgency" ∧ hasCat l "Suspicious URL" →
      hasCat (ind :: l) "Urgency" ∧ hasCat (ind :: l) "Suspicious URL" :=
    And.imp (hasCat_cons _ _ _) (hasCat_cons _ _ _)
  have f1 := ite_le_ite c1 (show (1 : ℚ) ≤ 1.5 by norm_num)
  have f2 := ite_le_ite c2 (show (1 : ℚ) ≤ 1.4 by norm_num)
  have f3 := ite_le_ite c3 (show (1 : ℚ) ≤ 1.4 by norm_num)
  have f4 := ite_le_ite c4 (show (1 : ℚ) ≤ 1.3 by norm_num)
  have f5 := ite_le_ite c5 (show (1 : ℚ) ≤ 1.3 by norm_num)
  have g1 := ite_factor_one_le (P := hasCritical l ∧ hasCat l "Credential Harvesting")
    (show (1 : ℚ) ≤ 1.5 by norm_num)
  have g2 := ite_factor_one_le (P := hasCat l "Credential Harvesting" ∧ hasCat l "Urgency")
    (show (1 : ℚ) ≤ 1.4 by norm_num)
  have g3 := ite_factor_one_le (P := hasCat l "Threat Language" ∧ hasCat l "Credential Harvesting")
    (show (1 : ℚ) ≤ 1.4 by norm_num)
  have g4 := ite_factor_one_le (P := hasCat l "Credential Harvesting" ∧ hasCat l "Suspicious URL")
    (show (1 : ℚ) ≤ 1.3 by norm_num)
  have g5 := ite_factor_one_le (P := hasCat l "Urgency" ∧ hasCat l "Suspicious URL")
    (show (1 : ℚ) ≤ 1.3 by norm_num)
  obtain ⟨h12, o12⟩ := mul_le_mul_one_le f1 f2 g1 g2
  obtain ⟨h13, o13⟩ := mul_le_mul_one_le h12 f3 o12 g3
  obtain ⟨h14, o14⟩ := mul_le_mul_one_le h13 f4 o13 g4
  obtain ⟨h15, o15⟩ := mul_le_mul_one_le h14 f5 o14 g5
  exact ⟨h15, o15⟩

lemma heuristicScore_cons_le (ind : Indicator) (l : List Indicator)
    (hconf : ∀ i ∈ l, 0 ≤ i.confidence) (hc : 0 ≤ ind.confidence) :
    heuristicScore l ≤ heuristicScore (ind :: l) := by
  obtain ⟨hb, h1b⟩ := boostFactor_cons ind l
  have hbase : baseHeuristicScore l ≤ baseHeuristicScore (ind :: l) := by
    rw [baseHeuristicScore_cons]
    have := mul_nonneg (sevWeight_nonneg ind.severity) hc
    linarith
  unfold heuristicScore
  exact mul_le_mul hb hbase (baseHeuristicScore_nonneg hconf)
    (le_trans zero_le_one (le_trans h1b hb))

lemma le_applyFloor (cond : Prop) [Decidable cond] (v x : ℚ) :
    x ≤ applyFloor cond v x := by
  unfold applyFloor
  split
  · exact le_max_left _ _
  · exact le_rfl

lemma applyFloor_le_max (cond : Prop) [Decidable cond] {v x y b : ℚ}
    (hv : v ≤ b) (hx : x ≤ max y b) : applyFloor cond v x ≤ max y b := by
  unfold applyFloor
  split
  · exact max_le hx (le_trans hv (le_max_right y b))
  · exact hx

lemma applyFloor_of_cond {cond : Prop} [Decidable cond] (h : cond) (v x : ℚ) :
    applyFloor cond v x = max x v :=
  if_pos h

/-- C2: holding the statistical probability and the other indicators fixed,
adding a second critical indicator never decreases the combined score of the
ensemble fusion. -/
theorem C2_fusion_monotone (l : List Indicator) (ind : Indicator) (M : ℚ)
    (hconf : ∀ i ∈ l, 0 ≤ i.confidence) (hc : 0 ≤ ind.confidence)
    (h1 : countSev l .critical = 1) (hsev : ind.severity = Severity.critical) :
    fuseScore l M ≤ fuseScore (ind :: l) M := by
  have hH := heuristicScore_cons_le ind l hconf hc
  have hcrit : countSev (ind :: l) .critical = 2 := by
    rw [countSev_cons, if_pos hsev, h1]
  have hlen : ¬ l.length = 0 := by
    have := countSev_le_length l .critical
    omega
  have hb1 : fuseBase l M
      = max (max (heuristicScore l) M)
          (0.55 * heuristicScore l + 0.45 * M) := by
    unfold fuseBase
    rw [if_neg hlen, if_neg]
    rintro ⟨h, -⟩
    omega
  have hb2 : fuseBase (ind :: l) M
      = max (max (heuristicScore (ind :: l)) M)
          (0.55 * heuristicScore (ind :: l) + 0.45 * M) := by
    unfold fuseBase
    rw [if_neg (by simp), if_neg]
    rintro ⟨h, -⟩
    omega
  have hbase : fuseBase l M ≤ fuseBase (ind :: l) M := by
    rw [hb1, hb2]
    exact max_le_max (max_le_max hH le_rfl) (by linarith)
  have hup : fuseScore l M ≤ max (fuseBase l M) 0.85 := by
    unfold fuseScore
    apply applyFloor_le_max _ (by norm_num)
    apply applyFloor_le_max _ (by norm_num)
    apply applyFloor_le_max _ (by norm_num)
    apply applyFloor_le_max _ (by norm_num)
    apply applyFloor_le_max _ (by norm_num)
    exact le_max_left _ _
  have hc1 : 3 ≤ countSev (ind :: l) .critical + countSev (ind :: l) .high ∨
      2 ≤ countSev (ind :: l) .critical := Or.inr (by omega)
  have hlow : max (fuseBase (ind :: l) M) 0.85 ≤ fuseScore (ind :: l) M := by
    unfold fuseScore
    refine le_trans ?_ (le_applyFloor _ _ _)
    refine le_trans ?_ (le_applyFloor _ _ _)
    refine le_trans ?_ (le_applyFloor _ _ _)
    refine le_trans ?_ (le_applyFloor _ _ _)
    rw [applyFloor_of_cond hc1]
  exact hup.trans ((max_le_max hbase le_rfl).trans hlow)

/-- Witness for C2 at a concrete pair of indicator lists. -/
theorem C2_fusion_monotone_witness :
    ((∀ i ∈ [(⟨"Urgency", "u", Severity.critical, none, 0.9⟩ : Indicator)],
        0 ≤ i.confidence) ∧
      (0 : ℚ) ≤ (0.95 : ℚ) ∧
      countSev [(⟨"Urgency", "u", Severity.critical, none, 0.9⟩ : Indicator)]
        .critical = 1) ∧
    fuseScore [(⟨"Urgency", "u", Severity.critical, none, 0.9⟩ : Indicator)] 0.5
      ≤ fuseScore
          ((⟨"Credential Harvesting", "c", Severity.critical, some "pin", 0.95⟩ : Indicator) ::
            [(⟨"Urgency", "u", Severity.critical, none, 0.9⟩ : Indicator)]) 0.5 :=
  ⟨⟨by
      intro i hi
      rw [List.mem_singleton] at hi
      subst hi
      norm_num, by norm_num, by decide⟩,
    C2_fusion_monotone _ _ _
      (by
        intro i hi
        rw [List.mem_singleton] at hi
        subst hi
        norm_num)
      (by norm_num) (by decide) rfl⟩

/-- Deduplication identity of an indicator: the pair of category and matched
text. -/
def ikey (i : Indicator) : String × Option String := (i.category, i.matched_text)

/-- Modelled from the spec: keep-first deduplication of indicators by their
identity, written with an accumulator of keys already seen. -/
def dedupAux (seen : List (String × Option String)) : List Indicator → List Indicator
  | [] => []
  | i :: rest =>
    if ikey i ∈ seen then dedupAux seen rest
    else i :: dedupAux (ikey i :: seen) rest

/-- Modelled from the spec: deduplication of the indicator list of the
missing analysis core by the pair of category and matched text
(DETECTION_GUIDE.md, Indicator Deduplication). -/
def dedupByKey (l : List Indicator) : List Indicator := dedupAux [] l

/-- Sort rank of a severity: critical sorts first. -/
def sevRank : Severity → ℕ
  | .critical => 0
  | .high => 1
  | .medium => 2
  | .low => 3

/-- Sort order of the final indicator list: by severity (critical first),
then by confidence descending. -/
def indBefore (a b : Indicator) : Prop :=
  sevRank a.severity < sevRank b.severity ∨
    (sevRank a.severity = sevRank b.severity ∧ b.confidence ≤ a.confidence)

instance : DecidableRel indBefore := fun a b => by
  unfold indBefore
  infer_instance

instance : IsTotal Indicator indBefore := by
  constructor
  intro a b
  unfold indBefore
  rcases lt_trichotomy (sevRank a.severity) (sevRank b.severity) with h | h | h
  · exact Or.inl (Or.inl h)
  · rcases le_total b.confidence a.confidence with hc | hc
    · exact Or.inl (Or.inr ⟨h, hc⟩)
    · exact Or.inr (Or.inr ⟨h.symm, hc⟩)
  · exact Or.inr (Or.inl h)

instance : IsTrans Indicator indBefore := by
  constructor
  intro a b c hab hbc
  unfold indBefore at hab hbc ⊢
  rcases hab with h1 | h1 <;> rcases hbc with h2 | h2
  · exact Or.inl (h1.trans h2)
  · exact Or.inl (h2.1 ▸ h1)
  · exact Or.inl (h1.1.symm ▸ h2)
  · exact Or.inr ⟨h1.1.trans h2.1, h2.2.trans h1.2⟩

/-- Modelled from the spec: the final indicator post-processing of the
missing analysis core: deduplicate by the identity, sort by severity then by
confidence descending, and keep at most 15 entries. -/
def getTopIndicators (l : List Indicator) : List Indicator :=
  (List.insertionSort indBefore (dedupByKey l)).take 15

lemma dedupAux_not_seen {seen : List (String × Option String)}
    {l : List Indicator} : ∀ i ∈ dedupAux seen l, ikey i ∉ seen := by
  induction l generalizing seen with
  | nil =>
    intro i hi
    simp [dedupAux] at hi
  | cons a rest ih =>
    intro i hi
    simp only [dedupAux] at hi
    by_cases hk : ikey a ∈ seen
    · rw [if_pos hk] at hi
      exact ih i hi
    · rw [if_neg hk] at hi
      rcases List.mem_cons.mp hi with h | h
      · rw [h]
        exact hk
      · have h2 := ih i h
        intro hmem
        exact h2 (List.mem_cons_of_mem _ hmem)

lemma dedupAux_pairwise (seen : List (String × Option String))
    (l : List Indicator) :
    List.Pairwise (fun a b => ikey a ≠ ikey b) (dedupAux seen l) := by
  induction l generalizing seen with
  | nil =>
    simp [dedupAux]
  | cons a rest ih =>
    simp only [dedupAux]
    split
    · exact ih _
    · refine List.Pairwise.cons ?_ (ih _)
      intro b hb he
      apply dedupAux_not_seen b hb
      rw [← he]
      exact List.mem_cons_self _ _

lemma dedupAux_complete (seen : List (String × Option String))
    (l : List Indicator) :
    ∀ i ∈ l, ikey i ∉ seen → ∃ j ∈ dedupAux seen l, ikey j = ikey i := by
  induction l generalizing seen with
  | nil =>
    intro i hi
    simp at hi
  | cons a rest ih =>
    intro i hi hnot
    simp only [dedupAux]
    rcases List.mem_cons.mp hi with h | h
    · subst h
      rw [if_neg hnot]
      exact ⟨i, List.mem_cons_self _ _, rfl⟩
    · by_cases hk : ikey a ∈ seen
      · rw [if_pos hk]
        exact ih seen i h hnot
      · rw [if_neg hk]
        by_cases he : ikey i = ikey a
        · exact ⟨a, List.mem_cons_self _ _, he.symm⟩
        · have hnot2 : ikey i ∉ ikey a :: seen := by
            intro hm
            rcases List.mem_cons.mp hm with hm | hm
            · exact he hm
            · exact hnot hm
          obtain ⟨j, hj, hje⟩ := ih (ikey a :: seen) i h hnot2
          exact ⟨j, List.mem_cons_of_mem _ hj, hje⟩

/-- C3: the indicator post-processing yields a list in which no two entries
share the deduplication identity (category and matched text), sorted by
severity then by confidence descending, with at most 15 entries; and every
input indicator is represented by an entry with its identity in the
deduplicated list. -/
theorem C3_indicator_postprocessing (l : List Indicator) :
    List.Pairwise (fun a b => ikey a ≠ ikey b) (getTopIndicators l) ∧
    List.Sorted indBefore (getTopIndicators l) ∧
    (getTopIndicators l).length ≤ 15 ∧
    (∀ i ∈ l, ∃ j ∈ dedupByKey l, ikey j = ikey i) := by
  refine ⟨?_, ?_, ?_, ?_⟩
  · have hd : List.Pairwise (fun a b => ikey a ≠ ikey b) (dedupByKey l) :=
      dedupAux_pairwise _ _
    have hperm := List.perm_insertionSort indBefore (dedupByKey l)
    have hpw : List.Pairwise (fun a b => ikey a ≠ ikey b)
        (List.insertionSort indBefore (dedupByKey l)) := by
      refine (List.Perm.pairwise_iff ?_ hperm).mpr hd
      intro a b h he
      exact h he.symm
    exact List.Pairwise.sublist (List.take_sublist _ _) hpw
  · exact List.Pairwise.sublist (List.take_sublist _ _)
      (List.sorted_insertionSort indBefore _)
  · exact List.length_take_le _ _
  · intro i hi
    exact dedupAux_complete [] l i hi (by simp)

/-- Witness for C3 at a concrete two-element list whose entries share the
deduplication identity. -/
theorem C3_indicator_postprocessing_witness :
    ((⟨"Urgency", "d1", Severity.high, some "act now", 1⟩ : Indicator) ∈
        [(⟨"Urgency", "d1", Severity.high, some "act now", 1⟩ : Indicator),
          ⟨"Urgency", "d2", Severity.low, some "act now", 0⟩]) ∧
    (∃ j ∈ dedupByKey
        [(⟨"Urgency", "d1", Severity.high, some "act now", 1⟩ : Indicator),
          ⟨"Urgency", "d2", Severity.low, some "act now", 0⟩],
        ikey j = ikey (⟨"Urgency", "d1", Severity.high, some "act now", 1⟩ : Indicator)) ∧
    (getTopIndicators
        [(⟨"Urgency", "d1", Severity.high, some "act now", 1⟩ : Indicator),
          ⟨"Urgency", "d2", Severity.low, some "act now", 0⟩]).length ≤ 15 :=
  ⟨List.mem_cons_self _ _,
    (C3_indicator_postprocessing
      [(⟨"Urgency", "d1", Severity.high, some "act now", 1⟩ : Indicator),
        ⟨"Urgency", "d2", Severity.low, some "act now", 0⟩]).2.2.2
      (⟨"Urgency", "d1", Severity.high, some "act now", 1⟩ : Indicator)
      (List.mem_cons_self _ _),
    (C3_indicator_postprocessing
      [(⟨"Urgency", "d1", Severity.high, some "act now", 1⟩ : Indicator),
        ⟨"Urgency", "d2", Severity.low, some "act now", 0⟩]).2.2.1⟩

/-- Model of the scan route of the Node boundary layer: the content field may
be absent; content_type defaults to email when absent and is otherwise
forwarded unvalidated. The error case models the 400 response; the ok case
carries the payload forwarded to the analysis core. -/
def scanEndpoint (content : Option (List Char)) (ctype : Option String) :
    Except String (List Char × String) :=
  match content with
  | none => Except.error "Content is required"
  | some c =>
    if jsTrim c = [] then Except.error "Content is required"
    else Except.ok (c, ctype.getD "email")

/-- Model of the handleScan function of the Scanner page: trims the content,
rejects empty content, checks the rate limiter, then sanitizes and submits.
The some case carries the content string sent to the analysis endpoint. -/
def handleScanSend (content : List Char) (rateOk : Bool) : Option (List Char) :=
  if jsTrim content = [] then none
  else if !rateOk then none
  else some (sanitizeInput (jsTrim content))

/-- Helper for JSON object field access: first binding of the key. -/
def getFieldAux {V : Type} (k : String) : List (String × V) → Option V
  | [] => none
  | (k2, v) :: rest => if k2 = k then some v else getFieldAux k rest

/-- Field access on a JSON object literal modelled as its binding list in
source order: a later duplicate binding shadows an earlier one, as in
JavaScript object literals. -/
def getField {V : Type} (o : List (String × V)) (k : String) : Option V :=
  getFieldAux k o.reverse

/-- Model of the JSON object built by the scan route response: the id and
created_at fields returned by the database insert, then the spread of the
analysis result, whose bindings shadow the earlier ones on key collision. -/
def mkScanResponse {V : Type} (dbId dbCreated : V)
    (analysis : List (String × V)) : List (String × V) :=
  [("id", dbId), ("created_at", dbCreated)] ++ analysis

lemma getFieldAux_append {V : Type} (k : String) (l1 l2 : List (String × V)) :
    getFieldAux k (l1 ++ l2)
      = match getFieldAux k l1 with
        | some v => some v
        | none => getFieldAux k l2 := by
  induction l1 with
  | nil => simp [getFieldAux]
  | cons p rest ih =>
    obtain ⟨k2, v⟩ := p
    by_cases h : k2 = k
    · simp [getFieldAux, h]
    · simp [getFieldAux, h, ih]

lemma getFieldAux_eq_none {V : Type} (k : String) (l : List (String × V))
    (h : k ∉ l.map Prod.fst) : getFieldAux k l = none := by
  induction l with
  | nil => rfl
  | cons p rest ih =>
    obtain ⟨k2, v⟩ := p
    simp only [List.map_cons, List.mem_cons] at h
    push_neg at h
    rw [getFieldAux, if_neg (fun he => h.1 he.symm)]
    exact ih h.2

/-- C4 counterexample: a request with nonempty content and the invalid
content type banana is forwarded to the analysis core, not rejected by the
boundary layer. -/
theorem C4_boundary_counterexample :
    scanEndpoint (some ['h', 'i']) (some "banana")
      = Except.ok (['h', 'i'], "banana") ∧ "banana" ∉ contentTypeWhitelist := by
  constructor
  · rfl
  · decide

/-- C4 amended: the boundary rejects a request exactly when the content field
is absent, empty, or whitespace-only; every other request is forwarded to
the core with content_type defaulting to email when the field is absent —
the content_type value itself is not validated by the boundary layer. -/
theorem C4_boundary_validation (c : List Char) (ct : Option String) :
    scanEndpoint none ct = Except.error "Content is required" ∧
    (jsTrim c = [] → scanEndpoint (some c) ct = Except.error "Content is required") ∧
    (jsTrim c ≠ [] → scanEndpoint (some c) ct = Except.ok (c, ct.getD "email")) := by
  refine ⟨rfl, fun h => ?_, fun h => ?_⟩
  · simp [scanEndpoint, h]
  · simp [scanEndpoint, h]

/-- Witness for C4 at a concrete one-letter content with no content type. -/
theorem C4_boundary_validation_witness :
    jsTrim ['h'] ≠ [] ∧
      scanEndpoint (some ['h']) none = Except.ok (['h'], "email") :=
  ⟨by decide, (C4_boundary_validation ['h'] none).2.2 (by decide)⟩

/-- C5 counterexample: the input consisting of the two angle brackets is not
whitespace-only, so the handler submits it, but sanitization removes both
characters, so the submitted content is the empty string — its length is 0,
not at least 1. -/
theorem C5_length_counterexample :
    handleScanSend ['<', '>'] true = some [] ∧
      (∀ sent, handleScanSend ['<', '>'] true = some sent → sent.length = 0) := by
  have h1 : jsTrim ['<', '>'] = ['<', '>'] := by decide
  have h2 : removeAngles ['<', '>'] = [] := by decide
  have h3 : sanitizeInput (jsTrim ['<', '>']) = [] := by
    rw [h1]
    unfold sanitizeInput
    rw [if_neg (by decide), h2]
    simp [stripJsProto, stripHandlers, jsTrim]
  constructor
  · unfold handleScanSend
    rw [if_neg (by decide)]
    simp [h3]
  · intro sent hsent
    unfold handleScanSend at hsent
    rw [if_neg (by decide)] at hsent
    simp [h3] at hsent
    rw [hsent]
    rfl

/-- C5 amended: sanitizeInput always returns at most 50000 characters and
the handler rejects content whose trimmed form is empty, so any submitted
content has length at most 50000; but sanitization runs after the emptiness
check, so the submitted content can itself be empty (length 0). -/
theorem C5_submitted_length (content : List Char) (rateOk : Bool) :
    (sanitizeInput content).length ≤ 50000 ∧
    (∀ sent, handleScanSend content rateOk = some sent → sent.length ≤ 50000) ∧
    (jsTrim content = [] → handleScanSend content rateOk = none) := by
  have hlen : ∀ l : List Char, (sanitizeInput l).length ≤ 50000 := by
    intro l
    unfold sanitizeInput
    split
    · simp
    · exact List.length_take_le _ _
  refine ⟨hlen content, ?_, fun h => ?_⟩
  · intro sent hsent
    unfold handleScanSend at hsent
    by_cases h1 : jsTrim content = []
    · rw [if_pos h1] at hsent
      exact absurd hsent (by simp)
    · rw [if_neg h1] at hsent
      cases rateOk with
      | false => exact absurd hsent (by simp)
      | true =>
        simp only [Bool.not_true, Bool.false_eq_true, if_false] at hsent
        have := Option.some.inj hsent
        rw [← this]
        exact hlen _
  · unfold handleScanSend
    rw [if_pos h]

/-- Witness for C5 at a whitespace-only content. -/
theorem C5_submitted_length_witness :
    jsTrim [' '] = [] ∧ handleScanSend [' '] true = none :=
  ⟨by decide, (C5_submitted_length [' '] true).2.2 (by decide)⟩

/-- C7: for a successful scan, the boundary response preserves every field of
the analysis result unchanged and adds exactly the id and created_at fields
from the persistence step. -/
theorem C7_scan_response_frame {V : Type} (i c : V)
    (analysis : List (String × V))
    (hid : "id" ∉ analysis.map Prod.fst)
    (hca : "created_at" ∉ analysis.map Prod.fst) :
    (∀ k, k ≠ "id" → k ≠ "created_at" →
      getField (mkScanResponse i c analysis) k = getField analysis k) ∧
    getField (mkScanResponse i c analysis) "id" = some i ∧
    getField (mkScanResponse i c analysis) "created_at" = some c ∧
    (mkScanResponse i c analysis).map Prod.fst
      = "id" :: "created_at" :: analysis.map Prod.fst := by
  have hrev : (mkScanResponse i c analysis).reverse
      = analysis.reverse ++ [("created_at", c), ("id", i)] := by
    simp [mkScanResponse]
  refine ⟨?_, ?_, ?_, ?_⟩
  · intro k hk1 hk2
    unfold getField
    rw [hrev, getFieldAux_append]
    have htail : getFieldAux k [("created_at", c), ("id", i)] = none := by
      unfold getFieldAux
      rw [if_neg (fun he => hk2 he.symm)]
      unfold getFieldAux
      rw [if_neg (fun he => hk1 he.symm)]
      rfl
    rw [htail]
    cases h : getFieldAux k analysis.reverse <;> rfl
  · unfold getField
    rw [hrev, getFieldAux_append]
    have hnone : getFieldAux "id" analysis.reverse = none := by
      apply getFieldAux_eq_none
      simpa using hid
    rw [hnone]
    rfl
  · unfold getField
    rw [hrev, getFieldAux_append]
    have hnone : getFieldAux "created_at" analysis.reverse = none := by
      apply getFieldAux_eq_none
      simpa using hca
    rw [hnone]
    rfl
  · simp [mkScanResponse]

/-- Witness for C7 at a concrete analysis object with one field. -/
theorem C7_scan_response_frame_witness :
    ("id" ∉ [("classification", "safe")].map Prod.fst ∧
      "created_at" ∉ [("classification", "safe")].map Prod.fst) ∧
    getField (mkScanResponse "7" "now" [("classification", "safe")]) "id"
      = some "7" ∧
    getField (mkScanResponse "7" "now" [("classification", "safe")])
      "classification" = some "safe" :=
  ⟨⟨by decide, by decide⟩,
    (C7_scan_response_frame "7" "now" [("classification", "safe")]
      (by decide) (by decide)).2.1,
    by
      have h := (C7_scan_response_frame "7" "now" [("classification", "safe")]
        (by decide) (by decide)).1 "classification" (by decide) (by decide)
      rw [h]
      rfl⟩

/-- The calls kept by one limiter invocation: the recorded timestamps with
those older than the window start shifted off the front. -/
def rlKept (w : ℤ) (calls : List ℤ) (now : ℤ) : List ℤ :=
  calls.dropWhile (fun u => decide (u < now - w))

/-- One invocation of the closure returned by createRateLimiter: drop old
calls, refuse when the window already holds maxCalls timestamps, otherwise
record the call. Returns the decision and the new state. -/
def rlStep (mc : ℕ) (w : ℤ) (calls : List ℤ) (now : ℤ) : Bool × List ℤ :=
  if mc ≤ (rlKept w calls now).length then (false, rlKept w calls now)
  else (true, rlKept w calls now ++ [now])

/-- A sequence of limiter invocations at the given timestamps from the given
state; returns each timestamp with its decision. -/
def rlRun (mc : ℕ) (w : ℤ) : List ℤ → List ℤ → List (ℤ × Bool)
  | _, [] => []
  | calls, t :: rest =>
    (t, (rlStep mc w calls t).fst) :: rlRun mc w (rlStep mc w calls t).snd rest

/-- An invocation result that was allowed and whose timestamp lies in the
window starting at a of length w. -/
def winAccept (a w : ℤ) (p : ℤ × Bool) : Bool :=
  p.snd && decide (a ≤ p.fst) && decide (p.fst ≤ a + w)

lemma rlStep_reject {mc : ℕ} {w : ℤ} {S : List ℤ} {t : ℤ}
    (h : mc ≤ (rlKept w S t).length) : rlStep mc w S t = (false, rlKept w S t) := by
  rw [rlStep, if_pos h]

lemma rlStep_accept {mc : ℕ} {w : ℤ} {S : List ℤ} {t : ℤ}
    (h : ¬ mc ≤ (rlKept w S t).length) :
    rlStep mc w S t = (true, rlKept w S t ++ [t]) := by
  rw [rlStep, if_neg h]

lemma rlRun_fst_mem (mc : ℕ) (w : ℤ) :
    ∀ (trace S : List ℤ), ∀ p ∈ rlRun mc w S trace, p.fst ∈ trace := by
  intro trace
  induction trace with
  | nil =>
    intro S p hp
    simp [rlRun] at hp
  | cons t rest ih =>
    intro S p hp
    simp only [rlRun] at hp
    rcases List.mem_cons.mp hp with h | h
    · rw [h]
      exact List.mem_cons_self _ _
    · exact List.mem_cons_of_mem _ (ih _ p h)

lemma dropWhile_lt_eq_filter (c : ℤ) :
    ∀ (S : List ℤ), List.Sorted (· ≤ ·) S →
      S.dropWhile (fun u => decide (u < c)) = S.filter (fun u => decide (c ≤ u)) := by
  intro S
  induction S with
  | nil =>
    intro _
    rfl
  | cons u rest ih =>
    intro hS
    rw [List.sorted_cons] at hS
    by_cases h : u < c
    · have h2 : ¬ c ≤ u := not_le.mpr h
      rw [List.dropWhile_cons, List.filter_cons, if_pos (by simp [h]),
        if_neg (by simp [h2]), ih hS.2]
    · have hcu : c ≤ u := not_lt.mp h
      have hall : ∀ v ∈ rest, (fun v => decide (c ≤ v)) v = true := by
        intro v hv
        simp [le_trans hcu (hS.1 v hv)]
      rw [List.dropWhile_cons, List.filter_cons, if_neg (by simp [h]),
        if_pos (by simp [hcu]), List.filter_eq_self.mpr hall]

lemma rl_bound (mc : ℕ) (w a : ℤ) :
    ∀ (trace S : List ℤ),
      List.Sorted (· ≤ ·) trace →
      List.Sorted (· ≤ ·) S →
      (∀ u ∈ S, ∀ t ∈ trace, u ≤ t) →
      (rlRun mc w S trace).countP (winAccept a w)
        ≤ mc - S.countP (fun u => decide (a ≤ u)) := by
  intro trace
  induction trace with
  | nil =>
    intro S _ _ _
    simp [rlRun]
  | cons t rest ih =>
    intro S htr hS hbound
    obtain ⟨hthead, hrest⟩ := List.sorted_cons.mp htr
    have hkept_sub : List.Sublist (rlKept w S t) S := List.dropWhile_sublist _
    have hkept_sorted : List.Sorted (· ≤ ·) (rlKept w S t) :=
      List.Pairwise.sublist hkept_sub hS
    have hkept_mem : ∀ u ∈ rlKept w S t, u ∈ S := fun u hu => hkept_sub.mem hu
    have hkept_bound : ∀ u ∈ rlKept w S t, ∀ t2 ∈ rest, u ≤ t2 :=
      fun u hu t2 h2 => hbound u (hkept_mem u hu) t2 (List.mem_cons_of_mem _ h2)
    by_cases hwin : t ≤ a + w
    · have hkfilter : rlKept w S t = S.filter (fun u => decide (t - w ≤ u)) :=
        dropWhile_lt_eq_filter (t - w) S hS
      have hcountkept : S.countP (fun u => decide (a ≤ u))
          ≤ (rlKept w S t).countP (fun u => decide (a ≤ u)) := by
        rw [hkfilter, List.countP_filter]
        apply List.countP_mono_left
        intro u _ hu
        simp only [decide_eq_true_eq] at hu
        simp only [Bool.and_eq_true, decide_eq_true_eq]
        exact ⟨hu, by omega⟩
      by_cases hacc : mc ≤ (rlKept w S t).length
      · have hrec := ih (rlKept w S t) hrest hkept_sorted hkept_bound
        have hgoal : (rlRun mc w S (t :: rest)).countP (winAccept a w)
            = (rlRun mc w (rlKept w S t) rest).countP (winAccept a w) := by
          simp [rlRun, rlStep_reject hacc, winAccept, List.countP_cons]
        rw [hgoal]
        omega
      · have hlt : (rlKept w S t).countP (fun u => decide (a ≤ u)) < mc :=
          lt_of_le_of_lt (List.countP_le_length _) (not_le.mp hacc)
        have hsorted2 : List.Sorted (· ≤ ·) (rlKept w S t ++ [t]) := by
          refine List.pairwise_append.mpr ⟨hkept_sorted, List.pairwise_singleton _ _, ?_⟩
          intro u hu v hv
          rw [List.mem_singleton] at hv
          subst hv
          exact hbound u (hkept_mem u hu) v (List.mem_cons_self _ _)
        have hbound2 : ∀ u ∈ rlKept w S t ++ [t], ∀ t2 ∈ rest, u ≤ t2 := by
          intro u hu t2 h2
          rcases List.mem_append.mp hu with h | h
          · exact hkept_bound u h t2 h2
          · rw [List.mem_singleton] at h
            subst h
            exact hthead t2 h2
        have hrec := ih (rlKept w S t ++ [t]) hrest hsorted2 hbound2
        have hcount2 : (rlKept w S t ++ [t]).countP (fun u => decide (a ≤ u))
            = (rlKept w S t).countP (fun u => decide (a ≤ u))
              + if a ≤ t then 1 else 0 := by
          rw [List.countP_append]
          simp [List.countP_cons]
        by_cases hat : a ≤ t
        · have hgoal : (rlRun mc w S (t :: rest)).countP (winAccept a w)
              = (rlRun mc w (rlKept w S t ++ [t]) rest).countP (winAccept a w)
                + 1 := by
            simp [rlRun, rlStep_accept hacc, List.countP_cons, winAccept, hat, hwin]
          rw [hgoal]
          rw [hcount2, if_pos hat] at hrec
          omega
        · have hgoal : (rlRun mc w S (t :: rest)).countP (winAccept a w)
              = (rlRun mc w (rlKept w S t ++ [t]) rest).countP (winAccept a w) := by
            simp [rlRun, rlStep_accept hacc, List.countP_cons, winAccept, hat]
          rw [hgoal]
          rw [hcount2, if_neg hat] at hrec
          omega
    · have hzero : (rlRun mc w S (t :: rest)).countP (winAccept a w) = 0 := by
        rw [List.countP_eq_zero]
        intro p hp
        have hmem := rlRun_fst_mem mc w (t :: rest) S p hp
        have hge : t ≤ p.fst := by
          rcases List.mem_cons.mp hmem with h | h
          · exact h.ge
          · exact hthead _ h
        simp only [winAccept, Bool.and_eq_true, decide_eq_true_eq]
        rintro ⟨⟨-, -⟩, hle⟩
        omega
      rw [hzero]
      exact Nat.zero_le _

/-- C10: for every limiter and every non-decreasing timestamp sequence, at
most maxCalls of the invocations whose timestamps lie in any single window
of length windowMs are allowed; every further invocation inside such a
window is refused, since allowing it would exceed the bound. The Scanner
instantiates maxCalls = 10 and windowMs = 60000. -/
theorem C10_rate_limiter_window (maxCalls : ℕ) (windowMs : ℤ)
    (trace : List ℤ) (a : ℤ)
    (htr : List.Sorted (· ≤ ·) trace) :
    (rlRun maxCalls windowMs [] trace).countP (winAccept a windowMs)
      ≤ maxCalls := by
  have h := rl_bound maxCalls windowMs a trace [] htr (by simp) (by simp)
  simpa using h

/-- Witness for C10 at the Scanner instantiation and a concrete trace. -/
theorem C10_rate_limiter_window_witness :
    List.Sorted (· ≤ ·) [(0 : ℤ), 5, 20] ∧
      (rlRun 10 60000 [] [(0 : ℤ), 5, 20]).countP (winAccept 0 60000) ≤ 10 :=
  ⟨by decide, C10_rate_limiter_window 10 60000 [(0 : ℤ), 5, 20] 0 (by decide)⟩

/-- Modelled from the spec: the trained statistical model of the missing
analysis core, built once at warm-up and read-only afterwards; predict maps
content and content type to the positive-class probability. -/
structure TrainedModel where
  name : String
  predict : String → String → ℚ

/-- Modelled from the spec: one analysis request environment. The heur field
is the configured heuristic layer (content and content type to indicators);
infra is the optional network-derived infrastructure contribution; now and
seed stand for ambient process state (clock, randomness source) that the
core does not consult. -/
structure AnalysisEnv where
  content : String
  content_type : String
  model : TrainedModel
  heur : String → String → List Indicator
  infra : Option ℚ
  now : ℤ
  seed : ℕ

/-- The structured result of one analysis. -/
structure AnalysisResult where
  classification : String
  combined_score : ℚ
  risk_level : String
  indicators : List Indicator
  ml_probability : ℚ
  model_name : String

/-- Modelled from the spec: the analysis pipeline of the missing core:
heuristic indicators, deduplication with sorting and capping, statistical
probability, ensemble fusion with the optional infrastructure contribution,
and classification. -/
def runAnalysis (env : AnalysisEnv) : AnalysisResult :=
  let inds := getTopIndicators (env.heur env.content env.content_type)
  let M := env.model.predict env.content env.content_type
  let combined :=
    match env.infra with
    | none => fuseScore inds M
    | some q => fuseScore inds M + q
  { classification := (classifyScore combined).fst
    combined_score := combined
    risk_level := (classifyScore combined).snd
    indicators := inds
    ml_probability := M
    model_name := env.model.name }

/-- C6: the analysis is a deterministic function of content, content type,
trained-model state and heuristic configuration: two runs on environments
that agree on those and carry no network-derived infrastructure signal
produce identical results, whatever the ambient clock and randomness state. -/
theorem C6_analysis_deterministic (env1 env2 : AnalysisEnv)
    (hc : env1.content = env2.content)
    (ht : env1.content_type = env2.content_type)
    (hm : env1.model = env2.model)
    (hh : env1.heur = env2.heur)
    (h1 : env1.infra = none) (h2 : env2.infra = none) :
    runAnalysis env1 = runAnalysis env2 := by
  unfold runAnalysis
  rw [hc, ht, hm, hh, h1, h2]

/-- Witness for C6 at two concrete environments differing only in clock and
seed. -/
theorem C6_analysis_deterministic_witness :
    runAnalysis ⟨"m", "sms", ⟨"model", fun _ _ => 0⟩, fun _ _ => [], none, 0, 0⟩
      = runAnalysis
          ⟨"m", "sms", ⟨"model", fun _ _ => 0⟩, fun _ _ => [], none, 99, 5⟩ :=
  C6_analysis_deterministic _ _ rfl rfl rfl rfl rfl rfl
